import Mathlib

/-!
Verification of the SoftPatch anomaly-detection engine
(src/anomaly_detection/softpatch.py) against its specification.

Tensors are shallowly embedded as index functions into `ℚ` (machine floats
are modelled as exact rationals; square roots, needed only by the
nearest-neighbour weight estimator, are modelled over `ℝ`).  Shapes are
tracked as explicit `List ℕ` values and the reshape / permute bookkeeping of
the source is carried out on flat-index arithmetic, which is exactly what
the torch operations do on contiguous tensors.
-/

namespace SoftPatch

/-! ## PatchMaker (softpatch.py, class PatchMaker)

`PatchMaker.patchify` calls `torch.nn.Unfold(kernel_size=p, stride=s,
padding=pad, dilation=1)`.  `Unfold` reads, for batch `b`, flat kernel
index `k = c*p*p + ph*p + pw` and flat block index `l = r*cols + cl`
(row-major over output positions), the zero-padded input at spatial
position `(r*s + ph - pad, cl*s + pw - pad)`; its output shape is
`[B, C*p*p, rows*cols]` with `rows/cols` given by the usual convolution
output-size formula.  The definitions below embed those semantics. -/

/-- Source line `padding = int((self.patchsize - 1) / 2)`: float division then
truncation, which for `p ≥ 0` is natural division. -/
def srcPadding (p : ℕ) : ℕ := (p - 1) / 2

/-- Python `int(...)` applied to a float: truncation toward zero. -/
def pyInt (q : ℚ) : ℤ := if 0 ≤ q then ⌊q⌋ else ⌈q⌉

/-- Source lines computing `n_patches`: `(side + 2*padding - 1*(patchsize-1)
- 1) / self.stride + 1` in float arithmetic, then `int(n_patches)`. -/
def nPatchesSrc (side p s : ℕ) : ℤ :=
  pyInt (((side : ℚ) + 2 * (srcPadding p : ℚ) - ((p : ℚ) - 1) - 1) / (s : ℚ) + 1)

/-- The spatial-info list `number_of_total_patches` returned by `patchify`
when `return_spatial_info=True` (the grid shape `[rows, cols]`). -/
def gridShapeSrc (H W p s : ℕ) : List ℤ :=
  [nPatchesSrc H p s, nPatchesSrc W p s]

/-- The claimed patch-count formula: `floor((side + 2*pad - (patch_size-1)
- 1) / stride) + 1` with `pad = (patch_size - 1) / 2`. -/
def nPatchesClaim (side p s : ℕ) : ℤ :=
  ⌊(((side : ℤ) + 2 * (srcPadding p : ℤ) - ((p : ℤ) - 1) - 1 : ℚ)) / (s : ℚ)⌋ + 1

/-- Number of sliding-window positions along one side, as `torch.nn.Unfold`
computes it internally (natural-number arithmetic; agrees with
`nPatchesSrc` on all valid inputs). -/
def outCount (side p s pad : ℕ) : ℕ := (side + 2 * pad - (p - 1) - 1) / s + 1

/-- Zero-padded read of a `[B, C, H, W]` feature map at integer spatial
coordinates (the `padding` argument of `torch.nn.Unfold`). -/
def paddedAt (x : ℕ → ℕ → ℕ → ℕ → ℚ) (H W : ℕ) (b c : ℕ) (i j : ℤ) : ℚ :=
  if 0 ≤ i ∧ i < (H : ℤ) ∧ 0 ≤ j ∧ j < (W : ℤ) then x b c i.toNat j.toNat else 0

/-- Entry `(b, k, l)` of the `[B, C*p*p, rows*cols]` output of
`torch.nn.Unfold(kernel_size=p, stride=s, padding=pad)`. -/
def unfoldAt (x : ℕ → ℕ → ℕ → ℕ → ℚ) (H W p s pad : ℕ) (b k l : ℕ) : ℚ :=
  let cols := outCount W p s pad
  paddedAt x H W b (k / (p * p))
    ((((l / cols) * s + (k / p) % p : ℕ) : ℤ) - (pad : ℤ))
    ((((l % cols) * s + k % p : ℕ) : ℤ) - (pad : ℤ))

/-- Entry `(b, l, c, ph, pw)` of the tensor returned by
`PatchMaker.patchify`: the unfold output reshaped to `[B, C, p, p, L]`
(splitting dimension 1 row-major) and then permuted by `(0, 4, 1, 2, 3)`. -/
def patchifyAt (x : ℕ → ℕ → ℕ → ℕ → ℚ) (H W p s : ℕ) (b l c ph pw : ℕ) : ℚ :=
  unfoldAt x H W p s (srcPadding p) b (c * (p * p) + ph * p + pw) l

/-- Shape of the `torch.nn.Unfold` output. -/
def unfoldShape (B C H W p s pad : ℕ) : List ℕ :=
  [B, C * (p * p), outCount H p s pad * outCount W p s pad]

/-- Shape semantics of `t.permute(perm)`. -/
def permuteShape (perm : List ℕ) (sh : List ℕ) : List ℕ :=
  perm.map (fun i => sh.getD i 0)

/-- Shape of the tensor returned by `PatchMaker.patchify`: the source
reshapes the unfold output to `(B, C, p, p, -1)` (torch infers the `-1`
dimension as numel divided by the known dimensions) and permutes by
`(0, 4, 1, 2, 3)`. -/
def patchifyShape (B C H W p s : ℕ) : List ℕ :=
  let u := unfoldShape B C H W p s (srcPadding p)
  let numel := u.getD 0 0 * u.getD 1 0 * u.getD 2 0
  let inferred := numel / (B * C * p * p)
  permuteShape [0, 4, 1, 2, 3] [B, C, p, p, inferred]

/-! ## PatchMaker.score and the predict pipeline

`PatchMaker.score` runs `while timeserie_scores.ndim > 1:
timeserie_scores = torch.max(timeserie_scores, dim=-1).values`.  A rank-`n`
tensor is embedded as `Tens n` (nested lists, outermost list = leading
dimension); `torch.max(·, dim=-1)` reduces the innermost lists. -/

/-- Rank-indexed tensor of rationals: `Tens 0 = ℚ`, `Tens (n+1)` is a list
of rank-`n` tensors with the outermost list as the leading dimension. -/
@[reducible]
def Tens : ℕ → Type
  | 0 => ℚ
  | n + 1 => List (Tens n)

/-- Maximum of a list of scores, as `torch.max` over a (nonempty) axis. -/
def listMax : List ℚ → ℚ
  | [] => 0
  | x :: xs => xs.foldl max x

/-- One `torch.max(t, dim=-1).values` step: reduce the trailing dimension. -/
def maxLast : {n : ℕ} → Tens (n + 1) → Tens n
  | 0, t => listMax t
  | _ + 1, t => t.map maxLast

/-- The `while ndim > 1` loop of `PatchMaker.score`: reduce the trailing
dimension by max until the tensor is one-dimensional. -/
def score : {n : ℕ} → Tens (n + 1) → Tens 1
  | 0, t => t
  | _ + 1, t => score (maxLast t)

/-- Row-major `reshape(B, L)` of a flat score vector:
entry `(b, l)` is flat entry `b*L + l`. -/
def reshape2 (B L : ℕ) (s : List ℚ) : Tens 2 :=
  (List.range B).map fun b => (List.range L).map fun l => s.getD (b * L + l) 0

/-- The `timeserie_scores.reshape(*timeserie_scores.shape[:2], -1)` step of
`_predict` on a `[B, L]` tensor: the inferred trailing dimension is 1. -/
def reshapeTrailing1 (t : Tens 2) : Tens 3 :=
  t.map fun r => r.map fun q => [q]

/-- Row-major `reshape(B, rows, cols)` of a flat score vector, producing the
spatial anomaly masks of `_predict`. -/
def reshape3 (B rows cols : ℕ) (s : List ℚ) : Tens 3 :=
  (List.range B).map fun b =>
    (List.range rows).map fun i =>
      (List.range cols).map fun j => s.getD (b * (rows * cols) + i * cols + j) 0

/-- `PatchMaker.unpatch_scores(x, batchsize) = x.reshape(batchsize, -1,
*x.shape[1:])` applied to a flat `[N]` score vector: the inferred dimension
is `N / batchsize`. -/
def unpatchScores (s : List ℚ) (B : ℕ) : Tens 2 :=
  reshape2 B (s.length / B) s

/-- Soft re-weighting in `_predict`: when `soft_weight_flag` is set,
`weight = np.take(self.coreset_weight, indices)` and `timeserie_scores =
timeserie_scores * weight` (elementwise). -/
def weightedScores (soft : Bool) (cw : List ℚ) (raw : List ℚ) (idx : List ℕ) :
    List ℚ :=
  if soft then raw.zipWith (fun sc i => sc * cw.getD i 0) idx else raw

/-- The score/mask assembly of `SoftPatch._predict` (softpatch.py lines
353-373), starting from the raw per-patch scores and nearest-neighbour
indices returned by `anomaly_scorer.predict`: optional soft re-weighting,
then `unpatch_scores` + `reshape(*shape[:2], -1)` + `PatchMaker.score` for
the window scores, and `unpatch_scores` + `reshape(B, rows, cols)` for the
masks. -/
def predictAssemble (soft : Bool) (cw : List ℚ) (raw : List ℚ) (idx : List ℕ)
    (B rows cols : ℕ) : List ℚ × Tens 3 :=
  let ts := weightedScores soft cw raw idx
  (score (reshapeTrailing1 (unpatchScores ts B)), reshape3 B rows cols ts)

/-! ## Patch weight estimation, method "nearest"
(softpatch.py, `SoftPatch._compute_nearest_distance` and the `"nearest"`
branch of `_compute_patch_weight`)

For one patch position, the embeddings of the training windows form
`x : Fin b → Fin c → ℝ` (`b` = batch, `c` = channels).  The source builds
`dist_mat = (x_x + x_x.transpose(-1,-2) - 2*x@xᵀ).abs() ** 0.5` — the full
pairwise Euclidean distance matrix, whose diagonal (the self-distances) is
zero — and then takes `torch.topk(dist_mat, dim=-1, largest=False,
k=2)[0].sum(dim=-1)`: the sum of the two smallest entries of each row,
which equals the minimum of `v p.1 + v p.2` over index pairs `p.1 < p.2`. -/

/-- Entry `(i, j)` of `dist_mat`: the source computes
`(‖xᵢ‖² + ‖xⱼ‖² - 2⟨xᵢ,xⱼ⟩).abs() ** 0.5`. -/
noncomputable def distMat {b c : ℕ} (x : Fin b → Fin c → ℝ) (i j : Fin b) : ℝ :=
  Real.sqrt |(∑ k, x i k ^ 2) + (∑ k, x j k ^ 2) - 2 * ∑ k, x i k * x j k|

/-- All index pairs `(p.1, p.2)` with `p.1 < p.2`: the unordered pairs of
row entries among which `topk(k=2, largest=False).sum` finds its value. -/
def pairSet (b : ℕ) : Finset (Fin b × Fin b) :=
  Finset.univ.filter fun p => p.1 < p.2

/-- Sum of the two smallest entries of `v` (with multiplicity), the value of
`torch.topk(v, largest=False, k=2)[0].sum()`: the minimum of `v p.1 + v p.2`
over index pairs `p.1 < p.2`. -/
noncomputable def twoSmallestSum {b : ℕ} (v : Fin b → ℝ) (h : (pairSet b).Nonempty) : ℝ :=
  (pairSet b).inf' h fun p => v p.1 + v p.2

/-- Row `i` of `SoftPatch._compute_nearest_distance`: the sum of the two
smallest entries of row `i` of the distance matrix (self-distance
included, as in the source). -/
noncomputable def computeNearestDistance {b c : ℕ} (x : Fin b → Fin c → ℝ)
    (h : (pairSet b).Nonempty) (i : Fin b) : ℝ :=
  twoSmallestSum (distMat x i) h

/-- The `"nearest"` branch of `SoftPatch._compute_patch_weight`:
`patch_weight = self._compute_nearest_distance(patch_features) + 1`. -/
noncomputable def nearestWeight {b c : ℕ} (x : Fin b → Fin c → ℝ)
    (h : (pairSet b).Nonempty) (i : Fin b) : ℝ :=
  computeNearestDistance x h i + 1

/-- Index pairs drawn from the indices other than `i`. -/
def pairsAvoiding (b : ℕ) (i : Fin b) : Finset (Fin b × Fin b) :=
  ((Finset.univ.erase i) ×ˢ (Finset.univ.erase i)).filter fun p => p.1 < p.2

/-- The claimed weight, written from the spec sentence: the sum of the
distances from embedding `i` to its 2 nearest neighbours with the
self-distance excluded, shifted by +1. -/
noncomputable def nearestWeightSpec {b c : ℕ} (x : Fin b → Fin c → ℝ) (i : Fin b)
    (h : (pairsAvoiding b i).Nonempty) : ℝ :=
  (pairsAvoiding b i).inf' h (fun p => distMat x i p.1 + distMat x i p.2) + 1

/-- Concrete one-channel batch of three embeddings (values 0, 1, 3) used to
exercise the nearest-distance weight. -/
def x0Nearest : Fin 3 → Fin 1 → ℝ := ![![0], ![1], ![3]]

/-! ## Sampling mask (softpatch.py, `_fill_memory_bank` lines 195-201)

`threshold = torch.quantile(patch_weight, 1 - self.threshold)` followed by
`sampling_weight = torch.where(patch_weight > threshold, 0, 1)`.
`torch.quantile` sorts the flattened input and linearly interpolates at
position `q * (n - 1)`. -/

/-- Insert into an ascending list. -/
def insertAsc (a : ℚ) : List ℚ → List ℚ
  | [] => [a]
  | b :: bs => if a ≤ b then a :: b :: bs else b :: insertAsc a bs

/-- Ascending insertion sort (the sorted view `torch.quantile` works on). -/
def sortAsc : List ℚ → List ℚ
  | [] => []
  | a :: xs => insertAsc a (sortAsc xs)

/-- `torch.quantile(w, q)` with the default linear interpolation: with `v`
the ascending sort of `w` and `pos = q * (len(w) - 1)`, the result is
`v[⌊pos⌋] + (pos - ⌊pos⌋) * (v[⌊pos⌋ + 1] - v[⌊pos⌋])`. -/
def torchQuantile (w : List ℚ) (q : ℚ) : ℚ :=
  let v := sortAsc w
  let pos : ℚ := q * ((w.length : ℚ) - 1)
  let lo : ℕ := (⌊pos⌋).toNat
  v.getD lo 0 + (pos - (⌊pos⌋ : ℚ)) * (v.getD (lo + 1) 0 - v.getD lo 0)

/-- The binary sampling mask handed to the coreset sampler:
`torch.where(patch_weight > torch.quantile(patch_weight, 1 - τ), 0, 1)`. -/
def samplingWeight (pw : List ℚ) (τ : ℚ) : List ℕ :=
  pw.map fun x => if torchQuantile pw (1 - τ) < x then 0 else 1

/-! ## The memory-bank fill as a state machine
(softpatch.py, `SoftPatch._fill_memory_bank` and `_compute_patch_weight`)

The engine state mutated by `_fill_memory_bank` is captured by
`EngineState`.  The method-specific weight computations delegate to
external collaborators (sklearn's LOF, `multi_variate_gaussian.py`) or are
analysed separately above, so the dispatch takes the four branch results as
parameters; only the dispatch structure and the `+ 1` shifts live in
`_compute_patch_weight` itself.  The coreset sampler (`sampler.py`) is an
external collaborator as well and is passed in as a function. -/

/-- Engine state written by `_fill_memory_bank`. -/
structure EngineState where
  patch_weight : Option (List ℚ)
  coreset_weight : Option (List ℚ)
  feature_shape : List ℕ
  sampling_weight : Option (List ℕ)
  scorer_features : Option (List (List ℚ))
  deriving DecidableEq, Repr

/-- The method dispatch of `SoftPatch._compute_patch_weight`: the
`"nearest"` and `"gaussian"` branches shift their distance results by +1;
an unrecognized string raises `ValueError("Unexpected weight method")`. -/
def computePatchWeight (method : String) (lofW lofGpuW nearestW gaussW : List ℚ) :
    Except String (List ℚ) :=
  if method = "lof" then .ok lofW
  else if method = "lof_gpu" then .ok lofGpuW
  else if method = "nearest" then .ok (nearestW.map (· + 1))
  else if method = "gaussian" then .ok (gaussW.map (· + 1))
  else .error "Unexpected weight method"

/-- `patch_weight.clamp(min=0)`. -/
def clampMin0 (w : List ℚ) : List ℚ := w.map (max 0)

/-- `SoftPatch._fill_memory_bank` after the feature-embedding loop, as a
state transformer (softpatch.py lines 193-206).  In source order:
`self.feature_shape` is assigned first; then `_compute_patch_weight` runs
(raising on an unrecognized method, with the state as mutated so far);
then the quantile mask, `self.patch_weight`, the sampler run,
`self.coreset_weight` and the scorer fit follow. -/
def fillMemoryBank (st : EngineState) (newShape : List ℕ) (method : String)
    (τ : ℚ) (lofW lofGpuW nearestW gaussW : List ℚ)
    (samplerRun : List ℕ → List (List ℚ) × List ℕ) :
    Except (String × EngineState) EngineState :=
  let st1 := { st with feature_shape := newShape }
  match computePatchWeight method lofW lofGpuW nearestW gaussW with
  | .error e => .error (e, st1)
  | .ok pw =>
    let mask := samplingWeight pw τ
    let clamped := clampMin0 pw
    let st2 := { st1 with sampling_weight := some mask, patch_weight := some clamped }
    let (sampleFeatures, sampleIndices) := samplerRun mask
    .ok { st2 with
          coreset_weight := some (sampleIndices.map fun i => clamped.getD i 0),
          scorer_features := some sampleFeatures }

/-! ## Persistence (softpatch.py, `save_to_path` / `load_from_path`)

`save_to_path` pickles a string-keyed parameter dictionary;
`load_from_path` unpickles it and calls `self.load(**params, device=device,
nn_method=nn_method)`.  Python keyword binding is modelled explicitly: a
keyword whose name matches a named parameter of `load` binds it, every
other keyword is absorbed by `load`'s `**kwargs`, and a named parameter
with no matching keyword takes its declared default. -/

/-- Pickled parameter values (opaque objects such as `device` and
`nn_method` are collapsed to `obj`). -/
inductive PVal where
  | nat (n : ℕ)
  | nats (l : List ℕ)
  | strs (l : List String)
  | obj
  deriving DecidableEq, Repr

/-- The configuration fields of `SoftPatch.load` relevant to persistence
(`anomaly_score_num_nn` is the scorer's `n_nearest_neighbours`). -/
structure EngineConfig where
  layers_to_extract_from : PVal
  input_shape : PVal
  pretrain_embed_dimension : PVal
  target_embed_dimension : PVal
  patchsize : PVal
  patchstride : PVal
  anomaly_score_num_nn : PVal
  deriving DecidableEq, Repr

/-- The dictionary written by `SoftPatch.save_to_path` (softpatch.py lines
386-398); note the key `anomaly_scorer_num_nn`. -/
def saveParams (e : EngineConfig) : List (String × PVal) :=
  [("layers_to_extract_from", e.layers_to_extract_from),
   ("input_shape", e.input_shape),
   ("pretrain_embed_dimension", e.pretrain_embed_dimension),
   ("target_embed_dimension", e.target_embed_dimension),
   ("patchsize", e.patchsize),
   ("patchstride", e.patchstride),
   ("anomaly_scorer_num_nn", e.anomaly_score_num_nn)]

/-- Keyword lookup with a declared default (Python named-parameter
binding). -/
def kwGet (kw : List (String × PVal)) (key : String) (dflt : PVal) : PVal :=
  (kw.lookup key).getD dflt

/-- The call `self.load(**kw)`: `feature_extractor`, `backbone`, `device`
and `input_shape` are required positional parameters of `load`
(softpatch.py lines 25-47), so a call that supplies none of them raises a
`TypeError`; otherwise every named parameter takes the matching keyword or
its declared default (`layers_to_extract_from=("layer2","layer2")`,
`anomaly_score_num_nn=1`, ...), and unmatched keywords such as
`anomaly_scorer_num_nn` are absorbed by `**kwargs`. -/
def loadCall (kw : List (String × PVal)) : Except String EngineConfig :=
  if (kw.lookup "feature_extractor").isNone then
    .error "TypeError: load() missing required argument: feature_extractor"
  else if (kw.lookup "backbone").isNone then
    .error "TypeError: load() missing required argument: backbone"
  else if (kw.lookup "device").isNone then
    .error "TypeError: load() missing required argument: device"
  else if (kw.lookup "input_shape").isNone then
    .error "TypeError: load() missing required argument: input_shape"
  else
    .ok
      { layers_to_extract_from :=
          kwGet kw "layers_to_extract_from" (.strs ["layer2", "layer2"])
        input_shape := kwGet kw "input_shape" .obj
        pretrain_embed_dimension := kwGet kw "pretrain_embed_dimension" (.nat 1024)
        target_embed_dimension := kwGet kw "target_embed_dimension" (.nat 1024)
        patchsize := kwGet kw "patchsize" (.nat 3)
        patchstride := kwGet kw "patchstride" (.nat 1)
        anomaly_score_num_nn := kwGet kw "anomaly_score_num_nn" (.nat 1) }

/-- `SoftPatch.load_from_path` (softpatch.py lines 402-414): unpickle the
parameter dictionary and call `self.load(**params, device=device,
nn_method=nn_method)`. -/
def loadFromPath (params : List (String × PVal)) : Except String EngineConfig :=
  loadCall (params ++ [("device", .obj), ("nn_method", .obj)])

/-- Modelled from the spec: `common.NearestNeighbourScorer.predict` is not
under src/; per the spec it returns, for each query, "the mean distance to
its `k` nearest coreset embeddings".  Modelled here for one-dimensional
embeddings with the absolute difference as the distance. -/
def meanKNearest (k : ℕ) (coreset : List ℚ) (q : ℚ) : ℚ :=
  (((sortAsc (coreset.map fun c => |q - c|)).take k).foldr (· + ·) 0) / (k : ℚ)

/-! ## Predict before fit (softpatch.py, `predict` / `_predict`)

`_predict` queries `self.anomaly_scorer.predict`;
`common.NearestNeighbourScorer` is not under src/, so its unfitted
behaviour is modelled from the spec. -/

/-- Modelled from the spec: `common.NearestNeighbourScorer.predict` (not
under src/) raises a fatal `NotFittedError` when no `fit`/`load` has
built an index; otherwise it returns per-query scores and
nearest-neighbour indices computed from the stored coreset features. -/
def scorerPredict (index : Option (List (List ℚ)))
    (query : List (List ℚ) → List ℚ × List ℕ) :
    Except String (List ℚ × List ℕ) :=
  match index with
  | none => .error "NotFittedError"
  | some fs => .ok (query fs)

/-- `SoftPatch._predict` as a fallible pipeline: embed (always succeeds on
a loaded backbone), query the scorer, then assemble scores and masks
(softpatch.py lines 343-375). -/
def predictE (index : Option (List (List ℚ)))
    (query : List (List ℚ) → List ℚ × List ℕ)
    (soft : Bool) (cw : List ℚ) (B rows cols : ℕ) :
    Except String (List ℚ × Tens 3) :=
  match scorerPredict index query with
  | .error e => .error e
  | .ok (raw, idx) => .ok (predictAssemble soft cw raw idx B rows cols)

/-! ## Multi-scale alignment (softpatch.py, `_embed` lines 132-155)

Layer `i ≥ 1` arrives as a `[B, Lᵢ, C, p, p]` patch tensor with its own
grid `[rᵢ, cᵢ]`; the loop reshapes it to `[B, rᵢ, cᵢ, C, p, p]`, permutes
to `[B, C, p, p, rᵢ, cᵢ]`, flattens the leading four dimensions,
bilinearly resamples each `[rᵢ, cᵢ]` slice to the reference grid
`[r₀, c₀]` (`align_corners=False`), undoes the flattening and permutation,
and re-flattens the grid to `[B, r₀*c₀, C, p, p]`. -/

/-- Clamp an integer source index into `[0, n-1]` (torch border handling;
`Int.toNat` sends negatives to 0). -/
def clampIdx (n : ℕ) (i : ℤ) : ℕ := min (n - 1) i.toNat

/-- One output pixel of `F.interpolate(mode="bilinear",
align_corners=False)` resampling an `[ri, ci]` grid to `[r0, c0]`:
half-pixel source coordinates, floor/ceil neighbours clamped to the
border, bilinear blend. -/
def bilinear (ri ci r0 c0 : ℕ) (t : ℕ → ℕ → ℚ) (i j : ℕ) : ℚ :=
  let sx : ℚ := (((i : ℚ) + 1 / 2) * (ri : ℚ)) / (r0 : ℚ) - 1 / 2
  let sy : ℚ := (((j : ℚ) + 1 / 2) * (ci : ℚ)) / (c0 : ℚ) - 1 / 2
  let x0 : ℤ := ⌊sx⌋
  let y0 : ℤ := ⌊sy⌋
  let tx : ℚ := sx - (x0 : ℚ)
  let ty : ℚ := sy - (y0 : ℚ)
  (1 - tx) * (1 - ty) * t (clampIdx ri x0) (clampIdx ci y0) +
    (1 - tx) * ty * t (clampIdx ri x0) (clampIdx ci (y0 + 1)) +
    tx * (1 - ty) * t (clampIdx ri (x0 + 1)) (clampIdx ci y0) +
    tx * ty * t (clampIdx ri (x0 + 1)) (clampIdx ci (y0 + 1))

/-- Entry `(b, l, ch, ph, pw)` of the aligned layer-`i` tensor produced by
the loop body of `_embed` (softpatch.py lines 136-154), with `f` the
layer's `[B, Lᵢ, C, p, p]` patch tensor.  Each `let` mirrors one source
line: reshape to the layer grid, permute the grid innermost, flatten the
leading dimensions row-major, bilinearly resample, then unflatten,
permute back and re-flatten the reference grid row-major. -/
def alignLayer (f : ℕ → ℕ → ℕ → ℕ → ℕ → ℚ) (C p ri ci r0 c0 : ℕ)
    (b l ch ph pw : ℕ) : ℚ :=
  let g1 := fun b r c ch ph pw => f b (r * ci + c) ch ph pw
  let g2 := fun b ch ph pw r c => g1 b r c ch ph pw
  let g3 := fun m r c =>
    g2 (m / (C * (p * p))) (m / (p * p) % C) (m / p % p) (m % p) r c
  let g4 := fun m i j => bilinear ri ci r0 c0 (g3 m) i j
  let g5 := fun b ch ph pw r c => g4 (((b * C + ch) * p + ph) * p + pw) r c
  let g6 := fun b r c ch ph pw => g5 b ch ph pw r c
  g6 b (l / c0) (l % c0) ch ph pw

/-- Shape bookkeeping for the final steps of the alignment loop: after
resampling, the tensor is reshaped to `[B, C, p, p, r0, c0]`, permuted by
`(0, 4, 5, 1, 2, 3)` and reshaped to `(B, -1, C, p, p)` with the middle
dimension inferred as numel over the known dimensions. -/
def alignShape (B C p r0 c0 : ℕ) : List ℕ :=
  let permuted := permuteShape [0, 4, 5, 1, 2, 3] [B, C, p, p, r0, c0]
  let numel := permuted.foldr (· * ·) 1
  [B, numel / (B * C * (p * p)), C, p, p]

/-- Adaptive average pooling of a vector to length `m` (torch
`adaptive_avg_pool1d` bin boundaries). -/
def adaptiveAvgPool1d (v : List ℚ) (m : ℕ) : List ℚ :=
  (List.range m).map fun k =>
    let lo := k * v.length / m
    let hi := ((k + 1) * v.length + m - 1) / m
    (((v.drop lo).take (hi - lo)).foldr (· + ·) 0) / ((hi - lo : ℕ) : ℚ)

/-- Modelled from the spec: `common.Preprocessing` and `common.Aggregator`
are not under src/; per the spec each layer's per-patch features are
brought to `pretrain_embed_dimension`, the layers are combined, and the
result is projected to `target_embed_dimension`.  Modelled as adaptive
average pooling per layer followed by pooling of the concatenation. -/
def preprocessAggregate (layerFeatures : List (List ℚ))
    (pretrainDim targetDim : ℕ) : List ℚ :=
  adaptiveAvgPool1d
    ((layerFeatures.map fun v => adaptiveAvgPool1d v pretrainDim).flatten)
    targetDim

/-- A fitted configuration with a non-default neighbour count
(`anomaly_score_num_nn = 2`), the concrete input exhibiting the
persistence bug. -/
def cfgSaved : EngineConfig :=
  { layers_to_extract_from := .strs ["layer2", "layer2"]
    input_shape := .nats [240, 1]
    pretrain_embed_dimension := .nat 1024
    target_embed_dimension := .nat 1024
    patchsize := .nat 3
    patchstride := .nat 1
    anomaly_score_num_nn := .nat 2 }

/-! ## Helper lemmas -/

/-- Flat-index decomposition: leading digit of a two-digit mixed-radix
number. -/
theorem digit_div (a b q : ℕ) (h : b < q) : (a * q + b) / q = a := by
  have hq : 0 < q := by omega
  rw [Nat.add_comm, Nat.add_mul_div_right _ _ hq, Nat.div_eq_of_lt h, Nat.zero_add]

theorem digit_mod (a b q : ℕ) (h : b < q) : (a * q + b) % q = b := by
  rw [Nat.add_comm, Nat.add_mul_mod_self_right, Nat.mod_eq_of_lt h]

theorem pairSet_nonempty {b : ℕ} (hb : 2 ≤ b) : (pairSet b).Nonempty := by
  refine ⟨(⟨0, by omega⟩, ⟨1, by omega⟩), ?_⟩
  rw [pairSet, Finset.mem_filter]
  exact ⟨Finset.mem_univ _, Fin.mk_lt_mk.mpr Nat.zero_lt_one⟩

instance {ε α : Type} [DecidableEq ε] [DecidableEq α] : DecidableEq (Except ε α) :=
  fun a b =>
    match a, b with
    | .error e, .error f =>
      match decEq e f with
      | isTrue h => isTrue (by rw [h])
      | isFalse h => isFalse (by intro hh; cases hh; exact h rfl)
    | .ok x, .ok y =>
      match decEq x y with
      | isTrue h => isTrue (by rw [h])
      | isFalse h => isFalse (by intro hh; cases hh; exact h rfl)
    | .error _, .ok _ => isFalse (by intro hh; cases hh)
    | .ok _, .error _ => isFalse (by intro hh; cases hh)

theorem getD_range_map {α : Type} (f : ℕ → α) (n i : ℕ) (d : α) (h : i < n) :
    ((List.range n).map f).getD i d = f i := by
  rw [List.getD_eq_getElem?_getD, List.getElem?_map, List.getElem?_range h]
  rfl

theorem getD_map_lt {α β : Type} (f : α → β) (l : List α) (i : ℕ) (d : β) (d' : α)
    (h : i < l.length) : (l.map f).getD i d = f (l.getD i d') := by
  rw [List.getD_eq_getElem?_getD, List.getElem?_map, List.getElem?_eq_getElem h,
    List.getD_eq_getElem?_getD, List.getElem?_eq_getElem h]
  rfl

theorem getD_zipWith_mul (raw : List ℚ) (idx : List ℕ) (cw : List ℚ)
    (hlen : idx.length = raw.length) (n : ℕ) :
    (raw.zipWith (fun sc i => sc * cw.getD i 0) idx).getD n 0 =
      raw.getD n 0 * cw.getD (idx.getD n 0) 0 := by
  induction raw generalizing idx n with
  | nil => simp [List.getD]
  | cons a as ih =>
    cases idx with
    | nil => simp at hlen
    | cons i is =>
      cases n with
      | zero => simp [List.getD]
      | succ m =>
        simp only [List.zipWith_cons_cons, List.getD_cons_succ]
        exact ih is (by simpa using hlen) m

theorem listMax_singleton (q : ℚ) : listMax [q] = q := rfl

theorem score_rank1 (t : Tens 1) : score t = t := rfl

theorem score_rank3 (t : Tens 3) : score t = maxLast (maxLast t) := rfl

theorem maxLast_reshapeTrailing1 (t : Tens 2) : maxLast (reshapeTrailing1 t) = t := by
  show (t.map fun r => r.map fun q => [q]).map (fun v => v.map listMax) = t
  simp [List.map_map, Function.comp_def, listMax]

theorem maxLast_rank2_eq_map (t : Tens 2) : maxLast t = t.map listMax := rfl

/-! ## Claim theorems -/

theorem two_digit_lt {ph pw p : ℕ} (hph : ph < p) (hpw : pw < p) :
    ph * p + pw < p * p := by
  calc ph * p + pw < ph * p + p := by omega
    _ = (ph + 1) * p := by ring
    _ ≤ p * p := Nat.mul_le_mul_right p hph

/-- For odd patch sizes and a positive side, the three patch-count
computations agree: the source's float-then-int expression, the claimed
floor formula, and the natural-number count used by `torch.nn.Unfold`. -/
theorem nPatches_formula (side p s : ℕ) (hp : Odd p) (hside : 1 ≤ side) (hs : 0 < s) :
    nPatchesSrc side p s = nPatchesClaim side p s ∧
    (outCount side p s (srcPadding p) : ℤ) = nPatchesSrc side p s := by
  obtain ⟨t, ht⟩ := hp
  have hpad : srcPadding p = t := by subst ht; unfold srcPadding; omega
  have hnum : ((side : ℚ) + 2 * ((srcPadding p : ℕ) : ℚ) - ((p : ℚ) - 1) - 1) =
      ((side - 1 : ℕ) : ℚ) := by
    rw [hpad]; subst ht; push_cast [Nat.cast_sub hside]; ring
  have hfloor : ⌊((side - 1 : ℕ) : ℚ) / (s : ℚ)⌋ = (((side - 1) / s : ℕ) : ℤ) := by
    rw [← Int.natCast_floor_eq_floor (by positivity), Nat.floor_div_eq_div]
  have hsrc : nPatchesSrc side p s = (((side - 1) / s : ℕ) : ℤ) + 1 := by
    rw [nPatchesSrc, hnum, pyInt, if_pos (by positivity), Int.floor_add_one, hfloor]
  constructor
  · rw [hsrc, nPatchesClaim]
    congr 1
    rw [← hfloor]
    congr 1
    rw [hpad]; subst ht; push_cast [Nat.cast_sub hside]; ring
  · rw [hsrc, outCount, hpad]
    subst ht
    have he : side + 2 * t - (2 * t + 1 - 1) - 1 = side - 1 := by omega
    rw [he]
    push_cast
    ring

theorem patchifyShape_eval (B C H W p s : ℕ) (hB : 0 < B) (hC : 0 < C) (hp : 0 < p) :
    patchifyShape B C H W p s =
      [B, outCount H p s (srcPadding p) * outCount W p s (srcPadding p), C, p, p] := by
  rw [patchifyShape, unfoldShape]
  have h1 : ([B, C * (p * p),
      outCount H p s (srcPadding p) * outCount W p s (srcPadding p)] : List ℕ).getD 0 0 *
      ([B, C * (p * p),
        outCount H p s (srcPadding p) * outCount W p s (srcPadding p)] : List ℕ).getD 1 0 *
      ([B, C * (p * p),
        outCount H p s (srcPadding p) * outCount W p s (srcPadding p)] : List ℕ).getD 2 0 =
      (outCount H p s (srcPadding p) * outCount W p s (srcPadding p)) * (B * C * p * p) := by
    simp [List.getD]; ring
  rw [h1, Nat.mul_div_cancel _ (by positivity)]
  rfl

theorem patchifyAt_eval (x : ℕ → ℕ → ℕ → ℕ → ℚ) (H W p s : ℕ) (b l c ph pw : ℕ)
    (hph : ph < p) (hpw : pw < p) :
    patchifyAt x H W p s b l c ph pw =
      paddedAt x H W b c
        ((((l / outCount W p s (srcPadding p)) * s + ph : ℕ) : ℤ) - (srcPadding p : ℤ))
        ((((l % outCount W p s (srcPadding p)) * s + pw : ℕ) : ℤ) - (srcPadding p : ℤ)) := by
  have hk1 : (c * (p * p) + ph * p + pw) / (p * p) = c := by
    have h2 : ph * p + pw < p * p := two_digit_lt hph hpw
    have he : c * (p * p) + ph * p + pw = c * (p * p) + (ph * p + pw) := by ring
    rw [he, digit_div _ _ _ h2]
  have hk2 : ((c * (p * p) + ph * p + pw) / p) % p = ph := by
    have he : c * (p * p) + ph * p + pw = (c * p + ph) * p + pw := by ring
    rw [he, digit_div _ _ _ hpw, digit_mod _ _ _ hph]
  have hk3 : (c * (p * p) + ph * p + pw) % p = pw := by
    have he : c * (p * p) + ph * p + pw = (c * p + ph) * p + pw := by ring
    rw [he, digit_mod _ _ _ hpw]
  rw [patchifyAt, unfoldAt, hk1, hk2, hk3]

/-- C3 (counterexample): for a `[1, 1, 2, 2]` feature map with
`patch_size = 3`, `stride = 1`, the grid is 2×2 and the claimed output
shape `[batch * rows * cols, channels, patch_size, patch_size] =
[4, 1, 3, 3]` is not the shape of the returned tensor (which is the 5-D
`[1, 4, 1, 3, 3]`: batch and patch index are separate dimensions). -/
theorem patchify_shape_claim_false :
    patchifyShape 1 1 2 2 3 1 ≠ [1 * (2 * 2), 1, 3, 3] := by decide

/-- C3 (amended): `patchify` with centred padding `(p-1)/2` returns a
5-D tensor of shape `[batch, rows*cols, channels, p, p]` — patch index
second, row-major over the spatial grid: entry `(b, l, c, ph, pw)` reads
the zero-padded feature map at `((l/cols)*s + ph - pad,
(l%cols)*s + pw - pad)` — together with `grid_shape = [rows, cols]` where
the count per side is `floor((side + 2*pad - (patch_size-1) - 1) /
stride) + 1`. -/
theorem patchify_characterization
    (x : ℕ → ℕ → ℕ → ℕ → ℚ) (B C H W p s : ℕ) (b l c ph pw : ℕ)
    (hp : Odd p) (hH : 1 ≤ H) (hW : 1 ≤ W) (hs : 0 < s)
    (hB : 0 < B) (hC : 0 < C) (hph : ph < p) (hpw : pw < p) :
    gridShapeSrc H W p s = [nPatchesClaim H p s, nPatchesClaim W p s] ∧
    patchifyShape B C H W p s =
      [B, outCount H p s (srcPadding p) * outCount W p s (srcPadding p), C, p, p] ∧
    (outCount H p s (srcPadding p) : ℤ) = nPatchesSrc H p s ∧
    (outCount W p s (srcPadding p) : ℤ) = nPatchesSrc W p s ∧
    patchifyAt x H W p s b l c ph pw =
      paddedAt x H W b c
        ((((l / outCount W p s (srcPadding p)) * s + ph : ℕ) : ℤ) - (srcPadding p : ℤ))
        ((((l % outCount W p s (srcPadding p)) * s + pw : ℕ) : ℤ) - (srcPadding p : ℤ)) := by
  have hp0 : 0 < p := by obtain ⟨t, ht⟩ := hp; omega
  obtain ⟨hHsrc, hHout⟩ := nPatches_formula H p s hp hH hs
  obtain ⟨hWsrc, hWout⟩ := nPatches_formula W p s hp hW hs
  exact ⟨by rw [gridShapeSrc, hHsrc, hWsrc],
    patchifyShape_eval B C H W p s hB hC hp0, hHout, hWout,
    patchifyAt_eval x H W p s b l c ph pw hph hpw⟩

/-- Witness for C3 (amended): a `[1, 1, 2, 2]` feature map, `p = 3`,
`s = 1`, patch `l = 3`, kernel cell `(0, 1)`. -/
theorem patchify_characterization_witness :
    Odd 3 ∧ 1 ≤ 2 ∧ 0 < 1 ∧ 0 < 3 ∧ 1 < 3 ∧
      (gridShapeSrc 2 2 3 1 = [nPatchesClaim 2 3 1, nPatchesClaim 2 3 1] ∧
        patchifyShape 1 1 2 2 3 1 =
          [1, outCount 2 3 1 (srcPadding 3) * outCount 2 3 1 (srcPadding 3), 1, 3, 3] ∧
        (outCount 2 3 1 (srcPadding 3) : ℤ) = nPatchesSrc 2 3 1 ∧
        (outCount 2 3 1 (srcPadding 3) : ℤ) = nPatchesSrc 2 3 1 ∧
        patchifyAt (fun _ _ _ _ => 0) 2 2 3 1 0 3 0 0 1 =
          paddedAt (fun _ _ _ _ => 0) 2 2 0 0
            ((((3 / outCount 2 3 1 (srcPadding 3)) * 1 + 0 : ℕ) : ℤ) - (srcPadding 3 : ℤ))
            ((((3 % outCount 2 3 1 (srcPadding 3)) * 1 + 1 : ℕ) : ℤ) - (srcPadding 3 : ℤ))) :=
  ⟨by decide, by decide, by decide, by decide, by decide,
    patchify_characterization (fun _ _ _ _ => 0) 1 1 2 2 3 1 0 3 0 0 1
      (by decide) (by decide) (by decide) (by decide) (by decide) (by decide)
      (by decide) (by decide)⟩

/-- C10: `PatchMaker.score` is idempotent on every tensor of rank at least
one: its output is one-dimensional, and the `while ndim > 1` loop leaves a
one-dimensional input unchanged, so `score (score t) = score t`. -/
theorem score_idempotent : ∀ (n : ℕ) (t : Tens (n + 1)), score (score t) = score t :=
  fun _ _ => rfl

/-- C5: in `_predict`, the per-window scalar scores are obtained by
`unpatch_scores`, a reshape to `[B, L, 1]`, and `PatchMaker.score`, and the
result assigns to every window the maximum of its own patches' scores (the
scores as they stand after optional soft re-weighting). -/
theorem predict_window_scores_are_patch_max
    (soft : Bool) (cw raw : List ℚ) (idx : List ℕ) (B rows cols L : ℕ)
    (hB : 0 < B)
    (hlen : (weightedScores soft cw raw idx).length = B * L) :
    (predictAssemble soft cw raw idx B rows cols).1 =
      (List.range B).map fun b =>
        listMax ((List.range L).map fun l =>
          (weightedScores soft cw raw idx).getD (b * L + l) 0) := by
  have hdiv : (weightedScores soft cw raw idx).length / B = L := by
    rw [hlen]; exact Nat.mul_div_cancel_left L hB
  have h1 : (predictAssemble soft cw raw idx B rows cols).1 =
      score (reshapeTrailing1 (reshape2 B
        ((weightedScores soft cw raw idx).length / B)
        (weightedScores soft cw raw idx))) := rfl
  rw [h1, hdiv, score_rank3, maxLast_reshapeTrailing1, maxLast_rank2_eq_map,
    reshape2, List.map_map]
  rfl

/-- Witness for C5: two windows of two patches each. -/
theorem predict_window_scores_are_patch_max_witness :
    0 < 2 ∧ (weightedScores false [] [3, 1, 2, 5] []).length = 2 * 2 ∧
      (predictAssemble false [] [3, 1, 2, 5] [] 2 1 2).1 =
        (List.range 2).map fun b =>
          listMax ((List.range 2).map fun l =>
            (weightedScores false [] [3, 1, 2, 5] []).getD (b * 2 + l) 0) :=
  ⟨by decide, by decide,
    predict_window_scores_are_patch_max false [] [3, 1, 2, 5] [] 2 1 2 2
      (by decide) (by decide)⟩

/-- C6: with `soft_weight_flag` set, `_predict` multiplies each patch's raw
score by the stored coreset weight of that patch's nearest coreset member
(`np.take(self.coreset_weight, indices)`), and it does so before window
aggregation and before the mask reshape: the soft-weighted run equals a
plain run on the pre-multiplied scores, and every mask entry carries the
multiplied value. -/
theorem soft_weighting_before_aggregation
    (cw raw : List ℚ) (idx : List ℕ) (B rows cols : ℕ)
    (hlen : idx.length = raw.length) :
    predictAssemble true cw raw idx B rows cols =
      predictAssemble false cw
        (raw.zipWith (fun sc i => sc * cw.getD i 0) idx) idx B rows cols ∧
    ∀ b i j, b < B → i < rows → j < cols →
      ((((predictAssemble true cw raw idx B rows cols).2.getD b []).getD i []).getD j 0) =
        raw.getD (b * (rows * cols) + i * cols + j) 0 *
          cw.getD (idx.getD (b * (rows * cols) + i * cols + j) 0) 0 := by
  constructor
  · rfl
  · intro b i j hb hi hj
    have h2 : (predictAssemble true cw raw idx B rows cols).2 =
        reshape3 B rows cols (weightedScores true cw raw idx) := rfl
    rw [h2, reshape3, getD_range_map _ _ _ _ hb, getD_range_map _ _ _ _ hi,
      getD_range_map _ _ _ _ hj]
    exact getD_zipWith_mul raw idx cw hlen _

/-- Witness for C6: one window, a 1×2 patch grid, nearest indices `[1, 0]`
into the coreset weights `[2, 3]`. -/
theorem soft_weighting_before_aggregation_witness :
    ([1, 0] : List ℕ).length = ([5, 7] : List ℚ).length ∧
      (predictAssemble true [2, 3] [5, 7] [1, 0] 1 1 2 =
        predictAssemble false [2, 3]
          (([5, 7] : List ℚ).zipWith (fun sc i => sc * ([2, 3] : List ℚ).getD i 0) [1, 0])
          [1, 0] 1 1 2 ∧
      ∀ b i j, b < 1 → i < 1 → j < 2 →
        ((((predictAssemble true [2, 3] [5, 7] [1, 0] 1 1 2).2.getD b []).getD i []).getD j 0) =
          ([5, 7] : List ℚ).getD (b * (1 * 2) + i * 2 + j) 0 *
            ([2, 3] : List ℚ).getD (([1, 0] : List ℕ).getD (b * (1 * 2) + i * 2 + j) 0) 0) :=
  ⟨by decide, soft_weighting_before_aggregation [2, 3] [5, 7] [1, 0] 1 1 2 (by decide)⟩

/-- C4: the sampling mask handed to the coreset sampler has one entry per
raw patch weight, and an entry is 0 exactly when its weight strictly
exceeds `torch.quantile(patch_weight, 1 - threshold)`, 1 otherwise. -/
theorem sampling_mask_excludes_above_quantile
    (pw : List ℚ) (τ : ℚ) (i : ℕ) (hi : i < pw.length) :
    (samplingWeight pw τ).length = pw.length ∧
      ((samplingWeight pw τ).getD i 0 = 0 ↔
        torchQuantile pw (1 - τ) < pw.getD i 0) ∧
      ((samplingWeight pw τ).getD i 0 = 1 ↔
        ¬ torchQuantile pw (1 - τ) < pw.getD i 0) := by
  refine ⟨by simp [samplingWeight], ?_, ?_⟩ <;>
    rw [samplingWeight, getD_map_lt _ _ _ _ 0 hi] <;>
    by_cases h : torchQuantile pw (1 - τ) < pw.getD i 0 <;> simp [h]

/-- Witness for C4: four weights, threshold 0.15. -/
theorem sampling_mask_excludes_above_quantile_witness :
    3 < ([1, 2, 3, 4] : List ℚ).length ∧
      ((samplingWeight [1, 2, 3, 4] 0.15).length = ([1, 2, 3, 4] : List ℚ).length ∧
        ((samplingWeight [1, 2, 3, 4] 0.15).getD 3 0 = 0 ↔
          torchQuantile [1, 2, 3, 4] (1 - 0.15) < ([1, 2, 3, 4] : List ℚ).getD 3 0) ∧
        ((samplingWeight [1, 2, 3, 4] 0.15).getD 3 0 = 1 ↔
          ¬ torchQuantile [1, 2, 3, 4] (1 - 0.15) < ([1, 2, 3, 4] : List ℚ).getD 3 0)) :=
  ⟨by decide, sampling_mask_excludes_above_quantile [1, 2, 3, 4] 0.15 3 (by decide)⟩

/-- C8: with no fitted nearest-neighbour index (no successful `fit` or
`load`), `predict` fails with exactly `NotFittedError`: no scores or masks
are produced and no other failure is surfaced.  (The scorer itself is
modelled from the spec, `common.py` not being under src/.) -/
theorem predict_unfitted_raises
    (query : List (List ℚ) → List ℚ × List ℕ) (soft : Bool) (cw : List ℚ)
    (B rows cols : ℕ) :
    predictE none query soft cw B rows cols = .error "NotFittedError" := rfl

/-- C7 (amended): an unrecognized `weight_method` makes `_fill_memory_bank`
raise `ValueError("Unexpected weight method")` at first use, with
`patch_weight`, `coreset_weight`, the sampling weight and the scorer index
all unchanged — but `feature_shape` has already been overwritten, because
the source assigns it from the embedding before dispatching on the weight
method. -/
theorem fillMemoryBank_unknown_method (st : EngineState) (ns : List ℕ)
    (m : String) (τ : ℚ) (wlof wlofg wnear wgauss : List ℚ)
    (run : List ℕ → List (List ℚ) × List ℕ)
    (hm : m ∉ (["lof", "lof_gpu", "nearest", "gaussian"] : List String)) :
    fillMemoryBank st ns m τ wlof wlofg wnear wgauss run =
      .error ("Unexpected weight method", { st with feature_shape := ns }) := by
  simp only [List.mem_cons, List.mem_singleton, not_or] at hm
  obtain ⟨h1, h2, h3, h4⟩ := hm
  simp [fillMemoryBank, computePatchWeight, h1, h2, h3, h4]

/-- Witness for C7 (amended): the unrecognized method string "median" on a
concrete prior state. -/
theorem fillMemoryBank_unknown_method_witness :
    ("median" : String) ∉ (["lof", "lof_gpu", "nearest", "gaussian"] : List String) ∧
      fillMemoryBank ⟨none, none, [7, 7], none, none⟩ [28, 28] "median"
          (15 / 100) [] [] [] [] (fun _ => ([], [])) =
        .error ("Unexpected weight method", ⟨none, none, [28, 28], none, none⟩) :=
  ⟨by decide, by
    rw [fillMemoryBank_unknown_method ⟨none, none, [7, 7], none, none⟩ [28, 28]
      "median" (15 / 100) [] [] [] [] (fun _ => ([], [])) (by decide)]⟩

/-- C7 (counterexample): the claim "no partial engine state is written ...
feature_shape ... unchanged when the error is raised" is false on the
code: at a concrete input, the error state carries the freshly assigned
`feature_shape = [28, 28]`, not the prior `[7, 7]`. -/
theorem fillMemoryBank_overwrites_feature_shape :
    fillMemoryBank ⟨none, none, [7, 7], none, none⟩ [28, 28] "median"
        (15 / 100) [] [] [] [] (fun _ => ([], [])) =
      .error ("Unexpected weight method", ⟨none, none, [28, 28], none, none⟩) ∧
    ([28, 28] : List ℕ) ≠ [7, 7] := by
  constructor
  · decide
  · decide

/-- C1: the persistence round trip is broken in the code.
`load_from_path` calls `self.load(**params, device=..., nn_method=...)`
without supplying `load`'s required `feature_extractor` and `backbone`
arguments, so it raises a `TypeError` unconditionally; and even with those
supplied, the neighbour count saved under the key `anomaly_scorer_num_nn`
does not match `load`'s parameter name `anomaly_score_num_nn`, lands in
`**kwargs`, and the rebuilt scorer keeps the default of 1 nearest
neighbour instead of the saved 2 — under which the mean-of-k-nearest
anomaly score of a query differs. -/
theorem save_load_roundtrip_broken :
    loadFromPath (saveParams cfgSaved) =
        .error "TypeError: load() missing required argument: feature_extractor" ∧
      loadCall (saveParams cfgSaved ++
          [("feature_extractor", .obj), ("backbone", .obj),
            ("device", .obj), ("nn_method", .obj)]) =
        .ok { cfgSaved with anomaly_score_num_nn := .nat 1 } ∧
      cfgSaved.anomaly_score_num_nn = .nat 2 ∧
      meanKNearest 1 [0, 10] 0 ≠ meanKNearest 2 [0, 10] 0 := by
  refine ⟨by decide, by decide, by decide, ?_⟩
  norm_num [meanKNearest, sortAsc, insertAsc]

theorem two_le_three : (2 : ℕ) ≤ 3 := by norm_num

theorem erase_nonempty {b : ℕ} (hb : 2 ≤ b) (i : Fin b) :
    (Finset.univ.erase i).Nonempty := by
  rw [← Finset.card_pos, Finset.card_erase_of_mem (Finset.mem_univ i),
    Finset.card_univ, Fintype.card_fin]
  omega

theorem distMat_self {b c : ℕ} (x : Fin b → Fin c → ℝ) (i : Fin b) :
    distMat x i i = 0 := by
  have h : (∑ k, x i k ^ 2) + (∑ k, x i k ^ 2) - 2 * ∑ k, x i k * x i k = 0 := by
    have h2 : ∑ k, x i k * x i k = ∑ k, x i k ^ 2 := by
      apply Finset.sum_congr rfl; intro k _; ring
    rw [h2]; ring
  rw [distMat, h, abs_zero, Real.sqrt_zero]

theorem distMat_nonneg {b c : ℕ} (x : Fin b → Fin c → ℝ) (i j : Fin b) :
    0 ≤ distMat x i j := Real.sqrt_nonneg _

theorem twoSmallest_with_zero {b : ℕ} (v : Fin b → ℝ) (i : Fin b) (hvi : v i = 0)
    (hv : ∀ j, 0 ≤ v j) (hb : 2 ≤ b) :
    twoSmallestSum v (pairSet_nonempty hb) =
      (Finset.univ.erase i).inf' (erase_nonempty hb i) v := by
  apply le_antisymm
  · obtain ⟨j, hj, hjeq⟩ := Finset.exists_mem_eq_inf' (erase_nonempty hb i) v
    rw [hjeq]
    have hji : j ≠ i := Finset.ne_of_mem_erase hj
    rcases lt_or_gt_of_ne hji with hlt | hgt
    · have hmem : (j, i) ∈ pairSet b := by
        rw [pairSet, Finset.mem_filter]; exact ⟨Finset.mem_univ _, hlt⟩
      calc twoSmallestSum v (pairSet_nonempty hb) ≤ v j + v i :=
            Finset.inf'_le _ hmem
        _ = v j := by rw [hvi, add_zero]
    · have hmem : (i, j) ∈ pairSet b := by
        rw [pairSet, Finset.mem_filter]; exact ⟨Finset.mem_univ _, hgt⟩
      calc twoSmallestSum v (pairSet_nonempty hb) ≤ v i + v j :=
            Finset.inf'_le _ hmem
        _ = v j := by rw [hvi, zero_add]
  · apply Finset.le_inf'
    intro p hp
    rw [pairSet, Finset.mem_filter] at hp
    have hne : p.1 ≠ p.2 := ne_of_lt hp.2
    by_cases h1 : p.1 = i
    · have h2 : p.2 ≠ i := fun he => hne (h1.trans he.symm)
      calc (Finset.univ.erase i).inf' (erase_nonempty hb i) v ≤ v p.2 :=
            Finset.inf'_le _ (Finset.mem_erase.mpr ⟨h2, Finset.mem_univ _⟩)
        _ ≤ v p.1 + v p.2 := le_add_of_nonneg_left (hv p.1)
    · calc (Finset.univ.erase i).inf' (erase_nonempty hb i) v ≤ v p.1 :=
            Finset.inf'_le _ (Finset.mem_erase.mpr ⟨h1, Finset.mem_univ _⟩)
        _ ≤ v p.1 + v p.2 := le_add_of_nonneg_right (hv p.2)

/-- C2 (amended): for every patch position with at least two training
windows, the `"nearest"` raw weight of embedding `i` equals the distance
to its single nearest other embedding, shifted by +1: `topk(k=2,
largest=False)` over a distance-matrix row picks the zero self-distance
together with the distance to the nearest other embedding (the spec's
"2 nearest neighbours with self-distance excluded" does not hold). -/
theorem nearest_weight_is_nn_distance {b c : ℕ} (x : Fin b → Fin c → ℝ)
    (i : Fin b) (hb : 2 ≤ b) :
    nearestWeight x (pairSet_nonempty hb) i =
      (Finset.univ.erase i).inf' (erase_nonempty hb i) (distMat x i) + 1 := by
  rw [nearestWeight, computeNearestDistance,
    twoSmallest_with_zero (distMat x i) i (distMat_self x i)
      (fun j => distMat_nonneg x i j) hb]

theorem x0_d1 : distMat x0Nearest 0 1 = 1 := by
  rw [distMat]
  simp [x0Nearest, Fin.sum_univ_one]

theorem x0_d2 : distMat x0Nearest 0 2 = 3 := by
  rw [distMat]
  simp [x0Nearest, Fin.sum_univ_one]

/-- C2 (counterexample): for the one-channel batch (0, 1, 3) at a single
patch position, the code's weight for embedding 0 is (0 + 1) + 1 = 2 (the
two smallest row entries include the zero self-distance), while the
claimed "sum of distances to the 2 nearest neighbours, self excluded,
plus 1" is (1 + 3) + 1 = 5. -/
theorem nearest_weight_claim_false :
    nearestWeight x0Nearest (pairSet_nonempty two_le_three) 0 ≠
      nearestWeightSpec x0Nearest 0 ⟨(1, 2), by decide⟩ := by
  have hL : nearestWeight x0Nearest (pairSet_nonempty two_le_three) 0 = 2 := by
    rw [nearestWeight, computeNearestDistance, twoSmallestSum]
    have h1 : (pairSet 3).inf' (pairSet_nonempty two_le_three)
        (fun p => distMat x0Nearest 0 p.1 + distMat x0Nearest 0 p.2) = 1 := by
      apply le_antisymm
      · have hmem : ((0 : Fin 3), (1 : Fin 3)) ∈ pairSet 3 := by decide
        calc (pairSet 3).inf' (pairSet_nonempty two_le_three)
              (fun p => distMat x0Nearest 0 p.1 + distMat x0Nearest 0 p.2) ≤
            distMat x0Nearest 0 0 + distMat x0Nearest 0 1 := Finset.inf'_le _ hmem
          _ = 1 := by rw [distMat_self, x0_d1]; norm_num
      · apply Finset.le_inf'
        intro p hp
        fin_cases hp <;> simp [distMat_self, x0_d1, x0_d2]
    rw [h1]; norm_num
  have hR : nearestWeightSpec x0Nearest 0 ⟨(1, 2), by decide⟩ = 5 := by
    rw [nearestWeightSpec]
    have h2 : (pairsAvoiding 3 0).inf' ⟨(1, 2), by decide⟩
        (fun p => distMat x0Nearest 0 p.1 + distMat x0Nearest 0 p.2) = 4 := by
      apply le_antisymm
      · have hmem : ((1 : Fin 3), (2 : Fin 3)) ∈ pairsAvoiding 3 0 := by decide
        calc (pairsAvoiding 3 0).inf' ⟨(1, 2), by decide⟩
              (fun p => distMat x0Nearest 0 p.1 + distMat x0Nearest 0 p.2) ≤
            distMat x0Nearest 0 1 + distMat x0Nearest 0 2 := Finset.inf'_le _ hmem
          _ = 4 := by rw [x0_d1, x0_d2]; norm_num
      · apply Finset.le_inf'
        intro p hp
        fin_cases hp <;> simp [distMat_self, x0_d1, x0_d2] <;> norm_num
    rw [h2]; norm_num
  rw [hL, hR]
  norm_num

/-- Witness for C2 (amended): the concrete batch (0, 1, 3). -/
theorem nearest_weight_is_nn_distance_witness :
    2 ≤ 3 ∧ nearestWeight x0Nearest (pairSet_nonempty two_le_three) 0 =
      (Finset.univ.erase (0 : Fin 3)).inf' (erase_nonempty two_le_three 0)
        (distMat x0Nearest 0) + 1 :=
  ⟨two_le_three, nearest_weight_is_nn_distance x0Nearest 0 two_le_three⟩

theorem digit_bound {a C r q : ℕ} (ha : a < C) (hr : r < q) : a * q + r < C * q := by
  calc a * q + r < a * q + q := by omega
    _ = (a + 1) * q := by ring
    _ ≤ C * q := Nat.mul_le_mul_right q ha

theorem adaptiveAvgPool1d_length (v : List ℚ) (m : ℕ) :
    (adaptiveAvgPool1d v m).length = m := by
  simp [adaptiveAvgPool1d]

theorem preprocessAggregate_length (layerFeatures : List (List ℚ)) (pre targ : ℕ) :
    (preprocessAggregate layerFeatures pre targ).length = targ := by
  rw [preprocessAggregate, adaptiveAvgPool1d_length]

theorem alignShape_eval (B C p r0 c0 : ℕ) (hB : 0 < B) (hC : 0 < C) (hp : 0 < p) :
    alignShape B C p r0 c0 = [B, r0 * c0, C, p, p] := by
  rw [alignShape, permuteShape]
  have h1 : (([0, 4, 5, 1, 2, 3] : List ℕ).map
      (fun i => ([B, C, p, p, r0, c0] : List ℕ).getD i 0)) = [B, r0, c0, C, p, p] := by
    simp [List.getD]
  rw [h1]
  have h2 : (([B, r0, c0, C, p, p] : List ℕ).foldr (· * ·) 1) =
      (r0 * c0) * (B * C * (p * p)) := by
    simp [List.foldr]; ring
  rw [h2, Nat.mul_div_cancel _ (by positivity)]

theorem alignLayer_eval (f : ℕ → ℕ → ℕ → ℕ → ℕ → ℚ) (C p ri ci r0 c0 : ℕ)
    (b l ch ph pw : ℕ) (hch : ch < C) (hph : ph < p) (hpw : pw < p) :
    alignLayer f C p ri ci r0 c0 b l ch ph pw =
      bilinear ri ci r0 c0 (fun r c => f b (r * ci + c) ch ph pw) (l / c0) (l % c0) := by
  have hm1 : (((b * C + ch) * p + ph) * p + pw) / (C * (p * p)) = b := by
    have he : ((b * C + ch) * p + ph) * p + pw =
        b * (C * (p * p)) + (ch * (p * p) + (ph * p + pw)) := by ring
    have hb2 : ch * (p * p) + (ph * p + pw) < C * (p * p) :=
      digit_bound hch (two_digit_lt hph hpw)
    rw [he, digit_div _ _ _ hb2]
  have hm2 : ((((b * C + ch) * p + ph) * p + pw) / (p * p)) % C = ch := by
    have he : ((b * C + ch) * p + ph) * p + pw =
        (b * C + ch) * (p * p) + (ph * p + pw) := by ring
    rw [he, digit_div _ _ _ (two_digit_lt hph hpw), digit_mod _ _ _ hch]
  have hm3 : ((((b * C + ch) * p + ph) * p + pw) / p) % p = ph := by
    have he : ((b * C + ch) * p + ph) * p + pw =
        ((b * C + ch) * p + ph) * p + pw := rfl
    rw [he, digit_div _ _ _ hpw, digit_mod _ _ _ hph]
  have hm4 : (((b * C + ch) * p + ph) * p + pw) % p = pw := by
    rw [digit_mod _ _ _ hpw]
  simp only [alignLayer, hm1, hm2, hm3, hm4]

/-- C9: after multi-scale alignment in `_embed`, every layer `i ≥ 1` is
carried on layer 0's grid: the aligned tensor has shape
`[B, r0*c0, C, p, p]` (exactly `rows_0 * cols_0` patches per window), and
its flat patch index decodes row-major exactly as layer 0's
(`l ↦ (l / c0, l % c0)`), each aligned patch being the bilinear resample
of the layer's own grid at that position; and after preprocessing and
aggregation (modelled from the spec, `common.py` not being under src/)
every patch's embedding has length `target_embed_dimension`. -/
theorem multiscale_alignment_characterization
    (f : ℕ → ℕ → ℕ → ℕ → ℕ → ℚ) (B C p ri ci r0 c0 : ℕ) (b l ch ph pw : ℕ)
    (layerFeatures : List (List ℚ)) (pre targ : ℕ)
    (hB : 0 < B) (hC : 0 < C) (hp : 0 < p)
    (hch : ch < C) (hph : ph < p) (hpw : pw < p) :
    alignShape B C p r0 c0 = [B, r0 * c0, C, p, p] ∧
    alignLayer f C p ri ci r0 c0 b l ch ph pw =
      bilinear ri ci r0 c0 (fun r c => f b (r * ci + c) ch ph pw) (l / c0) (l % c0) ∧
    (preprocessAggregate layerFeatures pre targ).length = targ :=
  ⟨alignShape_eval B C p r0 c0 hB hC hp,
    alignLayer_eval f C p ri ci r0 c0 b l ch ph pw hch hph hpw,
    preprocessAggregate_length layerFeatures pre targ⟩

/-- Witness for C9: a one-channel layer with a 1×1 grid aligned to a 2×2
reference grid, and a two-feature patch aggregated to one dimension. -/
theorem multiscale_alignment_characterization_witness :
    0 < 1 ∧ 0 < 1 ∧ 0 < 1 ∧ 0 < 1 ∧ 0 < 1 ∧ 0 < 1 ∧
      (alignShape 1 1 1 2 2 = [1, 2 * 2, 1, 1, 1] ∧
        alignLayer (fun _ _ _ _ _ => 7) 1 1 1 1 2 2 0 3 0 0 0 =
          bilinear 1 1 2 2 (fun r c => (fun _ _ _ _ _ => (7 : ℚ)) 0 (r * 1 + c) 0 0 0)
            (3 / 2) (3 % 2) ∧
        (preprocessAggregate [[1, 2]] 1 1).length = 1) :=
  ⟨by decide, by decide, by decide, by decide, by decide, by decide,
    multiscale_alignment_characterization (fun _ _ _ _ _ => 7) 1 1 1 1 1 2 2 0 3 0 0 0
      [[1, 2]] 1 1 (by decide) (by decide) (by decide) (by decide) (by decide)
      (by decide)⟩

end SoftPatch
